import Mathlib

/-!
Verification development for the index-topic parsing and path-resolution
engine of `canonicalwebteam.discourse`.

The Python sources are shallowly embedded:

* Python `str` values are embedded as `List Char` (named `Str` below), so
  that the string operations used by the code (`startswith`, `lstrip`,
  `rstrip`, slicing, concatenation) become structurally recursive Lean
  functions with easy induction principles.
* Python dicts are embedded as association lists with Python's assignment
  semantics (`pyInsert`: updating an existing key in place, otherwise
  appending at the end, which matches CPython's insertion-order dicts).
  The mixed-key URL map (`str` and `int` keys in one dict) is embedded as
  the pair of its two key-type fibers (`UrlMapPair`): in Python a `str`
  key never compares equal to an `int` key, so the single mixed dict and
  the pair of typed dicts are observationally identical.
* Raising `PathNotFoundError` / `RedirectFoundError` in `resolve_path` is
  embedded as the explicit result type `ResolveResult`.
* The regular expression `TOPIC_URL_MATCH` with `re.match` (anchored at
  the start, prefix match, greedy optional groups with backtracking) is
  embedded as the executable function `matchTopicUrl`.
-/

/-- Python `str`, embedded as its list of characters. -/
abbrev Str := List Char

/-- Embed a Lean string literal as a `Str`. -/
def lit (s : String) : Str := s.data

/-- Python `s.startswith(p)`. -/
def strStartsWith : Str → Str → Bool
  | _, [] => true
  | [], _ :: _ => false
  | c :: s, p :: ps => decide (c = p) && strStartsWith s ps

/-- Python `s.endswith("/")`. -/
def endsWithSlash (s : Str) : Bool :=
  match s.getLast? with
  | some c => decide (c = '/')
  | none => false

/-- Python `s.lstrip("/")`: drop every leading slash. -/
def lstripSlash (s : Str) : Str := s.dropWhile (fun c => decide (c = '/'))

/-- Python `s.rstrip("/")`: drop every trailing slash. -/
def rstripSlash (s : Str) : Str := (s.reverse.dropWhile (fun c => decide (c = '/'))).reverse

/-- Python `os.path.join(a, b)` for POSIX paths, as used by the parser
(`os.path.join(self.url_prefix, relative_path.lstrip("/"))`). -/
def osJoin (a b : Str) : Str :=
  if strStartsWith b (lit "/") then b
  else if a = [] then b
  else if endsWithSlash a then a ++ b
  else a ++ lit "/" ++ b

/-- Numeric value of an ASCII digit string, used for the digit runs
captured by the `\d+` groups of `TOPIC_URL_MATCH`. -/
def natOfDigits (s : Str) : Nat :=
  s.foldl (fun n c => n * 10 + (c.toNat - 48)) 0

/-- Classification of a character under Python's numeric predicates:
not numeric at all; a decimal digit (Unicode category Nd) with its
digit value, accepted by `int()`; or numeric without being a decimal
digit (categories No/Nl, e.g. vulgar fractions and Roman numerals),
which satisfies `str.isnumeric()` but makes `int()` raise
`ValueError`. -/
inductive CharNumClass where
  | notNumeric
  | decimalDigit (value : Nat)
  | numericNonDecimal
deriving DecidableEq

/-- The Unicode numeric classification of a character, restricted to a
documented repertoire: decimal digits of the ASCII (U+0030..U+0039),
Arabic-Indic (U+0660..U+0669), Extended Arabic-Indic (U+06F0..U+06F9),
Devanagari (U+0966..U+096F), Bengali (U+09E6..U+09EF) and fullwidth
(U+FF10..U+FF19) blocks; and the numeric-but-not-decimal superscripts
(U+00B2, U+00B3, U+00B9), vulgar fractions (U+00BC..U+00BE,
U+2150..U+215F), Roman numerals (U+2160..U+2182), circled numbers
(U+2460..U+2473) and ideographic zero (U+3007).  Characters outside
this repertoire are treated as not numeric. -/
def charNumClass (c : Char) : CharNumClass :=
  let n := c.toNat
  if 0x30 ≤ n ∧ n ≤ 0x39 then .decimalDigit (n - 0x30)
  else if 0x660 ≤ n ∧ n ≤ 0x669 then .decimalDigit (n - 0x660)
  else if 0x6F0 ≤ n ∧ n ≤ 0x6F9 then .decimalDigit (n - 0x6F0)
  else if 0x966 ≤ n ∧ n ≤ 0x96F then .decimalDigit (n - 0x966)
  else if 0x9E6 ≤ n ∧ n ≤ 0x9EF then .decimalDigit (n - 0x9E6)
  else if 0xFF10 ≤ n ∧ n ≤ 0xFF19 then .decimalDigit (n - 0xFF10)
  else if n = 0xB2 ∨ n = 0xB3 ∨ n = 0xB9 then .numericNonDecimal
  else if 0xBC ≤ n ∧ n ≤ 0xBE then .numericNonDecimal
  else if 0x2150 ≤ n ∧ n ≤ 0x215F then .numericNonDecimal
  else if 0x2160 ≤ n ∧ n ≤ 0x2182 then .numericNonDecimal
  else if 0x2460 ≤ n ∧ n ≤ 0x2473 then .numericNonDecimal
  else if n = 0x3007 then .numericNonDecimal
  else .notNumeric

/-- Python `s.isnumeric()`: non-empty and every character has a Unicode
numeric value (decimal digits and non-decimal numerics alike). -/
def pyIsNumericStr (s : Str) : Bool :=
  decide (s ≠ []) && s.all (fun c => decide (charNumClass c ≠ .notNumeric))

/-- Python `int(s)` for a string that passed `isnumeric()`: succeeds
with the base-10 value exactly when every character is a decimal digit
(mixed scripts allowed); `none` models the `ValueError` raised when
some character is numeric but not a decimal digit (e.g. `¼`). -/
def pyIntOfNumeric (s : Str) : Option Nat :=
  s.foldl
    (fun acc c =>
      match acc, charNumClass c with
      | some n, CharNumClass.decimalDigit v => some (n * 10 + v)
      | _, _ => none)
    (some 0)

/-!
The `TOPIC_URL_MATCH` regular expression from `base_parser.py`:

  `(?:/t)?(?:/(?P<slug>[^/]+))?/(?P<topic_id>\d+)(?:/\d+)?`

used with `re.match`, i.e. anchored at the start of the string but
allowed to match a proper prefix.  `matchIdPart` handles
`/(?P<topic_id>\d+)(?:/\d+)?`, `matchSlugId` additionally handles the
greedy optional slug group (tried first, abandoned on failure), and
`matchTopicUrl` handles the greedy optional `/t` prefix (consumed first,
given back on failure).  The returned value is the captured topic id.
-/

/-- Match `/(\d+)` at the start of `s`; trailing content is ignored
(`re.match` does not anchor the end). -/
def matchIdPart : Str → Option Nat
  | '/' :: rest =>
    let ds := rest.takeWhile Char.isDigit
    if ds = [] then none else some (natOfDigits ds)
  | _ => none

/-- Match `(?:/(?P<slug>[^/]+))?/(?P<topic_id>\d+)(?:/\d+)?` at the start
of `s`: the slug branch is tried first (greedy optional group), the
no-slug branch on its failure. -/
def matchSlugId (s : Str) : Option Nat :=
  let slugBranch : Option Nat :=
    match s with
    | '/' :: rest =>
      let chunk := rest.takeWhile (fun c => decide (c ≠ '/'))
      if chunk = [] then none
      else matchIdPart (rest.dropWhile (fun c => decide (c ≠ '/')))
    | _ => none
  match slugBranch with
  | some i => some i
  | none => matchIdPart s

/-- `TOPIC_URL_MATCH.match s`, returning the captured topic id. -/
def matchTopicUrl (s : Str) : Option Nat :=
  if strStartsWith s (lit "/t") then
    match matchSlugId (s.drop 2) with
    | some i => some i
    | none => matchSlugId s
  else matchSlugId s

/-- Scheme characters accepted by `urllib.parse.urlparse`. -/
def isSchemeChar (c : Char) : Bool :=
  c.isAlpha || c.isDigit || decide (c = '+') || decide (c = '-') || decide (c = '.')

/-- The `.path` component of `urllib.parse.urlparse`: strip a leading
`scheme:`, then a `//netloc` part, then a `#fragment` and a `?query`. -/
def urlparsePath (u : Str) : Str :=
  let u :=
    match u.findIdx? (fun c => decide (c = ':')) with
    | some i =>
      if 0 < i ∧ (u.take i).all isSchemeChar ∧ (u.headD ' ').isAlpha
      then u.drop (i + 1) else u
    | none => u
  let u :=
    if strStartsWith u (lit "//") then
      (u.drop 2).dropWhile (fun c => decide (c ≠ '/' ∧ c ≠ '?' ∧ c ≠ '#'))
    else u
  let u := u.takeWhile (fun c => decide (c ≠ '#'))
  u.takeWhile (fun c => decide (c ≠ '?'))

/-- Model of the external `validators.url(location, public=True)` check
(library code outside this repository): accepts `http(s)://` URLs with a
non-empty remainder.  Every verified claim short-circuits this check via
the `location.startswith(self.url_prefix)` disjunct, so only its
executability matters here. -/
def validatorsUrl (s : Str) : Bool :=
  (strStartsWith s (lit "http://") && decide (7 < s.length)) ||
  (strStartsWith s (lit "https://") && decide (8 < s.length))

/-!
Python dicts as association lists.  `pyInsert` is Python's
`d[k] = v`: update the first (and only) entry with key `k` in place,
otherwise append at the end — exactly CPython's insertion-order dict.
-/

/-- Lookup in an association list (`k in d` / `d[k]`). -/
def alGet {α β : Type} [DecidableEq α] : List (α × β) → α → Option β
  | [], _ => none
  | e :: d, k => if e.1 = k then some e.2 else alGet d k

/-- Python `d[k] = v`. -/
def pyInsert {α β : Type} [DecidableEq α] : List (α × β) → α → β → List (α × β)
  | [], k, v => [(k, v)]
  | e :: d, k, v => if e.1 = k then (k, v) :: d else e :: pyInsert d k v

/-- Python `dict([reversed(pair) for pair in d.items()])`: build a dict
from the swapped pairs by sequential insertion (later pairs overwrite
earlier ones with the same key). -/
def invertPairs {α β : Type} [DecidableEq α] [DecidableEq β] (l : List (α × β)) : List (β × α) :=
  List.foldl (fun d e => pyInsert d e.2 e.1) [] l

/-- The mixed-key URL map `{path: topic_id, topic_id: path}`, embedded as
its two key-type fibers (Python `str` and `int` keys never collide). -/
structure UrlMapPair where
  strs : List (Str × Nat)
  ints : List (Nat × Str)
deriving DecidableEq

/-!
Embedding of `BaseParser.resolve_path` (`base_parser.py`, lines 75-135)
together with its helpers `_match_url_with_topic` and
`_get_url_topic_id`.  Raised exceptions become `ResolveResult`
constructors carrying the same data as the exception objects.
-/

/-- Outcome of `resolve_path`: a returned topic id, a raised
`RedirectFoundError(full_path, target_url=...)`, or a raised
`PathNotFoundError(path)`. -/
inductive ResolveResult where
  | found (topicId : Nat)
  | redirectFound (path : Str) (targetUrl : Str)
  | pathNotFound (path : Str)
deriving DecidableEq

/-- The parser instance state read by `resolve_path`. -/
structure ParserState where
  baseUrl : Str
  urlPrefix : Str
  urlMap : UrlMapPair
  redirectMap : List (Str × Str)
  warnings : List Str
deriving DecidableEq

/-- `BaseParser._match_url_with_topic`. -/
def matchUrlWithTopic (baseUrl : Str) (path : Str) : Option Nat :=
  let path := if strStartsWith path (lit "//") then lit "http:" ++ path else path
  let path := if strStartsWith path baseUrl then path.drop baseUrl.length else path
  matchTopicUrl path

/-- `BaseParser._get_url_topic_id`: `none` models the raised
`PathNotFoundError` (no regex match, or falsy topic id `0`). -/
def getUrlTopicId (baseUrl : Str) (path : Str) : Option Nat :=
  match matchUrlWithTopic baseUrl path with
  | none => none
  | some topicId => if topicId = 0 then none else some topicId

/-- `BaseParser.resolve_path`, with the parser state threaded explicitly:
the second component is the parser state after the call (the source
method only reads `self`, so every branch returns `st` unchanged). -/
def resolvePathSt (st : ParserState) (relativePath : Str) : ResolveResult × ParserState :=
  let fullPath := osJoin st.urlPrefix (lstripSlash relativePath)
  match alGet st.redirectMap fullPath with
  | some loc => (.redirectFound fullPath loc, st)
  | none =>
    match alGet st.urlMap.strs fullPath with
    | some topicId => (.found topicId, st)
    | none =>
      match getUrlTopicId st.baseUrl relativePath with
      | none => (.pathNotFound relativePath, st)
      | some topicId =>
        match alGet st.urlMap.ints topicId with
        | some target => (.redirectFound fullPath target, st)
        | none => (.found topicId, st)

/-- `BaseParser.resolve_path`, result only. -/
def resolvePath (st : ParserState) (relativePath : Str) : ResolveResult :=
  (resolvePathSt st relativePath).1

/-!
Embedding of `BaseParser._parse_url_map` (`base_parser.py`, lines
353-391).  A table row is given by its extracted cells: the first
cell's anchor href (`td:first-child a[href]`, `none` when absent) and
the second cell's text (`td:nth-child(2)`, `none` when absent).
-/

/-- One row of a URLs table, as extracted from the HTML. -/
structure UrlRow where
  href : Option Str
  pathCell : Option Str
deriving DecidableEq

/-- Path normalization for a URL-map row: prepend `/` when missing, then
prepend `url_prefix` when the path does not already start with it. -/
def normalizePretty (urlPrefix : Str) (pathCell : Str) : Str :=
  let p := if strStartsWith pathCell (lit "/") then pathCell else lit "/" ++ pathCell
  if strStartsWith p urlPrefix then p else urlPrefix ++ p

/-- The homepage path: `url_prefix`, with all trailing slashes stripped
unless the prefix is exactly `/`. -/
def homePath (urlPrefix : Str) : Str :=
  if urlPrefix ≠ lit "/" ∧ endsWithSlash urlPrefix then rstripSlash urlPrefix else urlPrefix

/-- The body of the row loop of `_parse_url_map`: accumulates the
`path -> topic_id` dict and the warning list. -/
def urlRowStep (urlPrefix : Str) (acc : List (Str × Nat) × List Str) (row : UrlRow) :
    List (Str × Nat) × List Str :=
  match row.href, row.pathCell with
  | some href, some pathCell =>
    let topicPath := urlparsePath href
    let prettyPath := normalizePretty urlPrefix pathCell
    match matchTopicUrl topicPath with
    | none => (acc.1, acc.2 ++ [lit "Could not parse URL map item \x7bitem\x7d"])
    | some topicId =>
      if strStartsWith prettyPath urlPrefix then (pyInsert acc.1 prettyPath topicId, acc.2)
      else (acc.1, acc.2 ++ [lit "Could not parse URL map item \x7bitem\x7d"])
  | _, _ => (acc.1, acc.2 ++ [lit "Could not parse URL map item \x7bitem\x7d"])

/-- Saturation stage shared by `_parse_url_map` and
`DocParser._generate_url_map`: add the reverse `topic_id -> path`
entries, then unconditionally set the homepage pair. -/
def saturateUrlMap (strs0 : List (Str × Nat)) (urlPrefix : Str) (indexTopicId : Nat) :
    UrlMapPair :=
  let ids0 := invertPairs strs0
  let home := homePath urlPrefix
  ⟨pyInsert strs0 home indexTopicId, pyInsert ids0 indexTopicId home⟩

/-- `BaseParser._parse_url_map`, over the extracted rows of the URLs
section's table. -/
def parseUrlMap (rows : List UrlRow) (urlPrefix : Str) (indexTopicId : Nat) :
    UrlMapPair × List Str :=
  let acc := List.foldl (urlRowStep urlPrefix) ([], []) rows
  (saturateUrlMap acc.1 urlPrefix indexTopicId, acc.2)

/-!
Embedding of `BaseParser._parse_redirect_map` (`base_parser.py`, lines
137-214), over the extracted rows of the Redirects section's table.
The membership test `path in self.url_map` can only hit the string keys
of the mixed dict, so it takes the string fiber.
-/

/-- One row of a Redirects table: the texts of `td:first-child` and
`td:last-child` (`none` when the row has no such cell). -/
structure RedRow where
  pathCell : Option Str
  locationCell : Option Str
deriving DecidableEq

/-- The body of the row loop of `_parse_redirect_map`. -/
def redRowStep (urlPrefix : Str) (urlMapStrs : List (Str × Nat))
    (acc : List (Str × Str) × List Str) (row : RedRow) : List (Str × Str) × List Str :=
  match row.pathCell, row.locationCell with
  | some path, some location =>
    if ¬ strStartsWith path urlPrefix then
      (acc.1, acc.2 ++ [lit "Could not parse redirect map for " ++ path])
    else if ¬ (strStartsWith location urlPrefix || validatorsUrl location) then
      (acc.1, acc.2 ++ [lit "Redirect map location " ++ location ++ lit " is invalid"])
    else if (alGet urlMapStrs path).isSome then
      (acc.1, acc.2 ++ [lit "Redirect path " ++ path ++ lit " clashes with URL map"])
    else (pyInsert acc.1 path location, acc.2)
  | _, _ => (acc.1, acc.2 ++ [lit "Could not parse redirect map None"])

/-- `BaseParser._parse_redirect_map`. -/
def parseRedirectMap (rows : List RedRow) (urlPrefix : Str) (urlMapStrs : List (Str × Nat)) :
    List (Str × Str) × List Str :=
  List.foldl (redRowStep urlPrefix urlMapStrs) ([], []) rows

/-- Validity of a Redirects row, following the three rejection tests of
the source row loop (used to state the corrected duplicate-key claim). -/
def validRedRow (urlPrefix : Str) (urlMapStrs : List (Str × Nat)) (row : RedRow) : Bool :=
  match row.pathCell, row.locationCell with
  | some path, some location =>
    strStartsWith path urlPrefix &&
    (strStartsWith location urlPrefix || validatorsUrl location) &&
    !(alGet urlMapStrs path).isSome
  | _, _ => false

/-- The location of the last valid Redirects row whose source path is
`p` (the statement of the corrected tie-break claim: rows are processed
in document order and a plain key overwrite makes the last valid
occurrence win). -/
def lastValidLoc (urlPrefix : Str) (urlMapStrs : List (Str × Nat)) (p : Str) :
    List RedRow → Option Str
  | [] => none
  | row :: rest =>
    match lastValidLoc urlPrefix urlMapStrs p rest with
    | some l => some l
    | none =>
      if validRedRow urlPrefix urlMapStrs row ∧ row.pathCell = some p
      then row.locationCell else none

/-!
Embedding of `DocParser._parse_navigation_table` (`docs.py`, lines
332-399): the per-row loop over the selected navigation table rows.  A
row is given by its extracted cells: the level cell's text, the path
cell's text, and the navlink cell's first anchor href (if any) together
with the cell's full text.
-/

/-- One row of a Navigation table, as extracted from the HTML. -/
structure NavRow where
  levelCell : Str
  pathCell : Str
  navlinkHref : Option Str
  navlinkText : Str
deriving DecidableEq

/-- A parsed navigation item (`children` is always empty at this stage;
the tree is built later by `_process_nav_levels`). -/
structure NavItem where
  level : Nat
  path : Str
  navlinkHref : Option Str
  navlinkText : Str
deriving DecidableEq

/-- The row loop of `_parse_navigation_table`, mirroring
`if not level.isnumeric() or int(level) < 0`: a row whose level cell
fails `isnumeric()` appends one warning and is skipped (`or`
short-circuits, so `int()` is not reached); for a numeric cell `int()`
is evaluated, and a numeric-but-not-decimal cell (e.g. `¼`) makes it
raise `ValueError`, aborting the whole parse — modelled by the `none`
result; a decimal cell is never negative, so the `< 0` warn-and-skip
branch is dead code, and the row becomes an item with the digits'
value. -/
def parseNavigationTable : List NavRow → Option (List NavItem × List Str)
  | [] => some ([], [])
  | row :: rest =>
    if !(pyIsNumericStr row.levelCell) then
      match parseNavigationTable rest with
      | none => none
      | some acc => some (acc.1, (lit "Invalid level used: " ++ row.levelCell) :: acc.2)
    else
      match pyIntOfNumeric row.levelCell with
      | none => none
      | some n =>
        if decide ((n : Int) < 0) then
          match parseNavigationTable rest with
          | none => none
          | some acc =>
            some (acc.1, (lit "Invalid level used: " ++ row.levelCell) :: acc.2)
        else
          match parseNavigationTable rest with
          | none => none
          | some acc =>
            some ({ level := n, path := row.pathCell,
                    navlinkHref := row.navlinkHref,
                    navlinkText := row.navlinkText } :: acc.1, acc.2)

/-!
Embedding of `DocParser._generate_url_map` (`docs.py`, lines 200-276)
for the common case of an index topic with no "Documentation versions"
table, i.e. the single default version with path `""` and index topic
`self.index_topic_id` (`_parse_version_table`, lines 458-466).  In that
case the version's `url_prefix` is `self.url_prefix` itself.

Note on the empty-path branch: the source compares
`self.index_topic != self._get_url_topic_id(topic_url)` where
`self.index_topic` is the topic *dict* fetched from the API and the
right-hand side is an *int*, so the comparison is always true and every
topic-link row without a path gets the "Missing topic path" warning.
The call `_get_url_topic_id` raises `PathNotFoundError` when the matched
topic id is `0`; that raise aborts the whole parse and is modelled by
the `none` result.
-/

/-- Static configuration of a `DocParser` instance. -/
structure DocConfig where
  baseUrl : Str
  urlPrefix : Str
  indexTopicId : Nat
deriving DecidableEq

/-- The item loop of `_generate_url_map` for the default version,
accumulating the `path -> topic_id` dict and the warning list; `none`
models the `PathNotFoundError` raised on a falsy parsed topic id. -/
def genRowsAux (cfg : DocConfig) :
    List NavItem → List (Str × Nat) → List Str → Option (List (Str × Nat) × List Str)
  | [], acc, ws => some (acc, ws)
  | item :: rest, acc, ws =>
    match item.navlinkHref with
    | none =>
      if item.path ≠ [] then
        genRowsAux cfg rest acc (ws ++ [lit "Missing topic link for " ++ item.path])
      else genRowsAux cfg rest acc ws
    | some topicUrl =>
      if item.path = [] then
        match matchUrlWithTopic cfg.baseUrl topicUrl with
        | none => genRowsAux cfg rest acc ws
        | some topicId =>
          if topicId = 0 then none
          else genRowsAux cfg rest acc (ws ++ [lit "Missing topic path for " ++ topicUrl])
      else
        let topicPath := urlparsePath topicUrl
        let prettyPath := normalizePretty cfg.urlPrefix item.path
        match matchTopicUrl topicPath with
        | none => genRowsAux cfg rest acc (ws ++ [lit "Could not parse URL map item \x7bitem\x7d"])
        | some topicId =>
          if strStartsWith prettyPath cfg.urlPrefix then
            genRowsAux cfg rest (pyInsert acc prettyPath topicId) ws
          else genRowsAux cfg rest acc (ws ++ [lit "Could not parse URL map item \x7bitem\x7d"])

/-- `DocParser._generate_url_map` for the default version: the item
loop, then the reverse entries and the homepage pair. -/
def generateUrlMap (cfg : DocConfig) (navItems : List NavItem) :
    Option (UrlMapPair × List Str) :=
  match genRowsAux cfg navItems [] [] with
  | none => none
  | some (strs0, ws) => some (saturateUrlMap strs0 cfg.urlPrefix cfg.indexTopicId, ws)

/-!
Embedding of `DocParser.parse` (`docs.py`, lines 42-76) for an index
topic without a versions table and without a tutorials index.  The
index content is given by its two extracted tables.  The outputs other
than the warning list are pure functions of the content; the warning
list is *appended* to the instance's existing `self.warnings`.
-/

/-- The extracted tables of an index topic. -/
structure IndexContent where
  navRows : List NavRow
  redirectRows : List RedRow
deriving DecidableEq

/-- The mutable `DocParser` state set by `parse`. -/
structure DocState where
  urlMap : UrlMapPair
  redirectMap : List (Str × Str)
  navItems : List NavItem
  warnings : List Str
deriving DecidableEq

/-- The per-parse outputs of `DocParser.parse` as a pure function of the
index content: URL map, redirect map, navigation items, and (in the
`warnings` field) exactly the warnings produced by this parse pass
(`none` models an exception aborting the parse: a `ValueError` from
`int(level)` in `_parse_navigation_table`, or a `PathNotFoundError`
escaping `_generate_url_map`). -/
def docParseOutputs (cfg : DocConfig) (content : IndexContent) : Option DocState :=
  match parseNavigationTable content.navRows with
  | none => none
  | some nav =>
    match generateUrlMap cfg nav.1 with
    | none => none
    | some (urlMap, genWs) =>
      let red := parseRedirectMap content.redirectRows cfg.urlPrefix urlMap.strs
      some { urlMap := urlMap, redirectMap := red.1, navItems := nav.1,
             warnings := nav.2 ++ genWs ++ red.2 }

/-- `DocParser.parse`: rebuilds the maps and navigation wholesale and
appends this pass's warnings to the instance's accumulated list. -/
def docParse (cfg : DocConfig) (content : IndexContent) (st : DocState) : Option DocState :=
  match docParseOutputs cfg content with
  | none => none
  | some out =>
    some { urlMap := out.urlMap, redirectMap := out.redirectMap, navItems := out.navItems,
           warnings := st.warnings ++ out.warnings }

/-- The `ParserState` visible to `resolve_path` after a `DocParser`
parse (default version, so the flat URL map equals the version's map). -/
def docPS (cfg : DocConfig) (st : DocState) : ParserState :=
  ⟨cfg.baseUrl, cfg.urlPrefix, st.urlMap, st.redirectMap, st.warnings⟩

/-!
Embedding of `TutorialParser.parse` (`tutorials.py`, lines 15-37): URL
map from the "URLs" section via `_parse_url_map`, redirect map via
`_parse_redirect_map`, and `self.warnings` *replaced* by this pass's
warnings.
-/

/-- The extracted tables of a tutorials index topic. -/
structure TutContent where
  urlRows : List UrlRow
  redirectRows : List RedRow
deriving DecidableEq

/-- The mutable `TutorialParser` state set by `parse`. -/
structure TutState where
  urlMap : UrlMapPair
  redirectMap : List (Str × Str)
  warnings : List Str
deriving DecidableEq

/-- `TutorialParser.parse`. -/
def tutorialParse (cfg : DocConfig) (content : TutContent) (_st : TutState) : TutState :=
  let url := parseUrlMap content.urlRows cfg.urlPrefix cfg.indexTopicId
  let red := parseRedirectMap content.redirectRows cfg.urlPrefix url.1.strs
  { urlMap := url.1, redirectMap := red.1, warnings := url.2 ++ red.2 }

/-!
Embedding of `BaseParser._get_section` (`base_parser.py`, lines
414-451).  The claims concern sibling structure, so a document is
embedded as the flat list of its top-level nodes: heading tags
`h1`..`h6` (level and text) and other content.  The source finds the
first heading whose text equals the given text, takes everything after
it (`fetchNextSiblings`), and, when a heading of the same tag occurs in
that remainder, keeps only the elements before it
(`fetchPreviousSiblings`, reversed).
-/

/-- A top-level node of a parsed HTML document. -/
inductive HtmlNode where
  | heading (level : Nat) (text : Str)
  | content (html : Str)
deriving DecidableEq

/-- Does this node match `soup.find(re.compile("^h[1-6]$"), text=title)`? -/
def isHeadingWithText (title : Str) : HtmlNode → Bool
  | .heading _ t => decide (t = title)
  | .content _ => false

/-- Does this node match `section_soup.find(heading_tag)` for tag
`h{level}`? -/
def isHeadingOfLevel (level : Nat) : HtmlNode → Bool
  | .heading l _ => decide (l = level)
  | .content _ => false

/-- Everything before the next heading of tag `h{level}` in the sibling
list after the matched heading (`next_heading.fetchPreviousSiblings()`,
reversed), or the whole list when no such heading follows. -/
def sliceBeforeNextHeading (rest : List HtmlNode) (level : Nat) : List HtmlNode :=
  match rest.findIdx? (isHeadingOfLevel level) with
  | none => rest
  | some j => rest.take j

/-- `BaseParser._get_section`. -/
def getSection : List HtmlNode → Str → Option (List HtmlNode)
  | [], _ => none
  | HtmlNode.heading l t :: rest, title =>
    if t = title then some (sliceBeforeNextHeading rest l)
    else getSection rest title
  | HtmlNode.content _ :: rest, title => getSection rest title

/-- Keys of an association list are pairwise distinct (an invariant of
every dict built by `pyInsert` from the empty dict). -/
def keysNodup {α β : Type} (d : List (α × β)) : Prop := (d.map Prod.fst).Nodup

theorem alGet_pyInsert_self {α β : Type} [DecidableEq α] (d : List (α × β)) (k : α) (v : β) :
    alGet (pyInsert d k v) k = some v := by
  induction d with
  | nil => simp [pyInsert, alGet]
  | cons e d ih =>
    by_cases h : e.1 = k
    · simp [pyInsert, h, alGet]
    · simp [pyInsert, h, alGet, ih]

theorem alGet_pyInsert_ne {α β : Type} [DecidableEq α] (d : List (α × β)) (k k' : α) (v : β)
    (h : k' ≠ k) : alGet (pyInsert d k v) k' = alGet d k' := by
  induction d with
  | nil => simp [pyInsert, alGet, Ne.symm h]
  | cons e d ih =>
    by_cases he : e.1 = k
    · simp [pyInsert, he, alGet, Ne.symm h]
    · simp [pyInsert, he, alGet, ih]

theorem isSome_alGet_pyInsert {α β : Type} [DecidableEq α] (d : List (α × β)) (k k' : α) (v : β)
    (h : (alGet d k').isSome) : (alGet (pyInsert d k v) k').isSome := by
  by_cases hk : k' = k
  · subst hk; simp [alGet_pyInsert_self]
  · rwa [alGet_pyInsert_ne d k k' v hk]

theorem mem_pyInsert {α β : Type} [DecidableEq α] {d : List (α × β)} {k : α} {v : β}
    {e : α × β} (h : e ∈ pyInsert d k v) : e ∈ d ∨ e = (k, v) := by
  induction d with
  | nil => simpa [pyInsert] using h
  | cons f d ih =>
    by_cases hf : f.1 = k
    · simp only [pyInsert, if_pos hf] at h
      rcases List.mem_cons.mp h with h | h
      · exact Or.inr h
      · exact Or.inl (List.mem_cons_of_mem f h)
    · simp only [pyInsert, if_neg hf, List.mem_cons] at h
      rcases h with h | h
      · exact Or.inl (h ▸ List.mem_cons_self f d)
      · rcases ih h with h | h
        · exact Or.inl (List.mem_cons_of_mem f h)
        · exact Or.inr h

theorem alGet_mem {α β : Type} [DecidableEq α] {d : List (α × β)} {k : α} {v : β}
    (h : alGet d k = some v) : (k, v) ∈ d := by
  induction d with
  | nil => simp [alGet] at h
  | cons e d ih =>
    by_cases he : e.1 = k
    · simp only [alGet, if_pos he, Option.some.injEq] at h
      subst he; subst h
      exact List.mem_cons_self e d
    · simp only [alGet, if_neg he] at h
      exact List.mem_cons_of_mem e (ih h)

theorem isSome_alGet_of_mem {α β : Type} [DecidableEq α] {d : List (α × β)} {k : α} {v : β}
    (h : (k, v) ∈ d) : (alGet d k).isSome := by
  induction d with
  | nil => simp at h
  | cons e d ih =>
    by_cases he : e.1 = k
    · simp [alGet, he]
    · rcases List.mem_cons.mp h with h | h
      · exact absurd (congrArg Prod.fst h).symm he
      · simpa [alGet, he] using ih h

theorem mem_map_fst_pyInsert {α β : Type} [DecidableEq α] {d : List (α × β)} {k a : α} {v : β}
    (h : a ∈ (pyInsert d k v).map Prod.fst) : a ∈ d.map Prod.fst ∨ a = k := by
  rcases List.mem_map.mp h with ⟨e, he, rfl⟩
  rcases mem_pyInsert he with he | he
  · exact Or.inl (List.mem_map_of_mem Prod.fst he)
  · exact Or.inr (congrArg Prod.fst he)

theorem keysNodup_pyInsert {α β : Type} [DecidableEq α] {d : List (α × β)} (k : α) (v : β)
    (h : keysNodup d) : keysNodup (pyInsert d k v) := by
  induction d with
  | nil => simp [pyInsert, keysNodup]
  | cons e d ih =>
    rcases List.nodup_cons.mp h with ⟨hnot, hd⟩
    by_cases he : e.1 = k
    · simp only [pyInsert, if_pos he, keysNodup, List.map_cons, List.nodup_cons]
      exact ⟨fun hmem => hnot (he ▸ hmem), hd⟩
    · simp only [pyInsert, if_neg he, keysNodup, List.map_cons, List.nodup_cons]
      refine ⟨fun hmem => ?_, ih hd⟩
      rcases mem_map_fst_pyInsert hmem with hmem | hmem
      · exact hnot hmem
      · exact he hmem

theorem alGet_of_mem_nodup {α β : Type} [DecidableEq α] {d : List (α × β)} {k : α} {v : β}
    (h : (k, v) ∈ d) (hn : keysNodup d) : alGet d k = some v := by
  induction d with
  | nil => simp at h
  | cons e d ih =>
    rcases List.nodup_cons.mp hn with ⟨hnot, hd⟩
    rcases List.mem_cons.mp h with h | h
    · subst h; simp [alGet]
    · by_cases he : e.1 = k
      · exact absurd (List.mem_map_of_mem Prod.fst h) (he ▸ hnot)
      · simpa [alGet, he] using ih h hd

theorem strStartsWith_append_self (p r : Str) : strStartsWith (p ++ r) p = true := by
  induction p with
  | nil => cases r <;> simp [strStartsWith]
  | cons c p ih => simp [strStartsWith, ih]

theorem strStartsWith_refl (s : Str) : strStartsWith s s = true := by
  simpa using strStartsWith_append_self s []

theorem strStartsWith_normalizePretty (urlPrefix pathCell : Str) :
    strStartsWith (normalizePretty urlPrefix pathCell) urlPrefix = true := by
  unfold normalizePretty
  by_cases h1 : strStartsWith pathCell (lit "/") = true
  · simp only [h1, if_true]
    by_cases h2 : strStartsWith pathCell urlPrefix = true
    · simp [h2]
    · simp [h2, strStartsWith_append_self]
  · simp only [Bool.not_eq_true] at h1
    simp only [h1, Bool.false_eq_true, if_false]
    by_cases h2 : strStartsWith (lit "/" ++ pathCell) urlPrefix = true
    · simp [h2]
    · simp [h2, strStartsWith_append_self]

theorem mem_foldl_swapInsert {α β : Type} [DecidableEq α] [DecidableEq β] :
    ∀ (l : List (α × β)) (acc : List (β × α)) (e : β × α),
      e ∈ List.foldl (fun d p => pyInsert d p.2 p.1) acc l → e ∈ acc ∨ (e.2, e.1) ∈ l := by
  intro l
  induction l with
  | nil => intro acc e h; exact Or.inl h
  | cons p l ih =>
    intro acc e h
    rcases ih (pyInsert acc p.2 p.1) e h with h | h
    · rcases mem_pyInsert h with h | h
      · exact Or.inl h
      · subst h; simp
    · exact Or.inr (List.mem_cons_of_mem p h)

theorem isSome_foldl_swapInsert {α β : Type} [DecidableEq α] [DecidableEq β] :
    ∀ (l : List (α × β)) (acc : List (β × α)) (k : β),
      (alGet acc k).isSome → (alGet (List.foldl (fun d p => pyInsert d p.2 p.1) acc l) k).isSome := by
  intro l
  induction l with
  | nil => intro acc k h; exact h
  | cons p l ih => intro acc k h; exact ih _ k (isSome_alGet_pyInsert _ _ _ _ h)

theorem isSome_alGet_invert_aux {α β : Type} [DecidableEq α] [DecidableEq β] :
    ∀ (l : List (α × β)) (acc : List (β × α)) (p : α) (t : β), (p, t) ∈ l →
      (alGet (List.foldl (fun d q => pyInsert d q.2 q.1) acc l) t).isSome := by
  intro l
  induction l with
  | nil => intro acc p t h; simp at h
  | cons q l ih =>
    intro acc p t h
    rcases List.mem_cons.mp h with h | h
    · have ht : t = q.2 := congrArg Prod.snd h
      subst ht
      exact isSome_foldl_swapInsert l _ q.2 (by simp [alGet_pyInsert_self])
    · exact ih _ p t h

theorem isSome_alGet_invert_of_mem {α β : Type} [DecidableEq α] [DecidableEq β]
    {l : List (α × β)} {p : α} {t : β} (h : (p, t) ∈ l) :
    (alGet (invertPairs l) t).isSome := isSome_alGet_invert_aux l [] p t h

theorem mem_invertPairs {α β : Type} [DecidableEq α] [DecidableEq β]
    {l : List (α × β)} {t : β} {p : α} (h : (t, p) ∈ invertPairs l) : (p, t) ∈ l := by
  rcases mem_foldl_swapInsert l [] (t, p) h with h | h
  · simp at h
  · exact h

theorem urlRowStep_shape (urlPrefix : Str) (acc : List (Str × Nat) × List Str) (row : UrlRow) :
    (urlRowStep urlPrefix acc row).1 = acc.1 ∨
      ∃ k v, strStartsWith k urlPrefix = true ∧
        (urlRowStep urlPrefix acc row).1 = pyInsert acc.1 k v := by
  rcases row with ⟨href, pc⟩
  rcases href with _ | h
  · left; simp [urlRowStep]
  · rcases pc with _ | p
    · left; simp [urlRowStep]
    · rcases hm : matchTopicUrl (urlparsePath h) with _ | tid
      · left; simp [urlRowStep, hm]
      · by_cases hp : strStartsWith (normalizePretty urlPrefix p) urlPrefix = true
        · right
          exact ⟨normalizePretty urlPrefix p, tid, hp, by simp [urlRowStep, hm, hp]⟩
        · left; simp [urlRowStep, hm, hp]

theorem keysNodup_foldl_urlRowStep (urlPrefix : Str) :
    ∀ (rows : List UrlRow) (acc : List (Str × Nat) × List Str), keysNodup acc.1 →
      keysNodup (List.foldl (urlRowStep urlPrefix) acc rows).1 := by
  intro rows
  induction rows with
  | nil => intro acc h; exact h
  | cons row rows ih =>
    intro acc h
    refine ih _ ?_
    rcases urlRowStep_shape urlPrefix acc row with hs | ⟨k, v, _, hs⟩
    · rw [hs]; exact h
    · rw [hs]; exact keysNodup_pyInsert k v h

theorem keys_prefix_foldl_urlRowStep (urlPrefix : Str) :
    ∀ (rows : List UrlRow) (acc : List (Str × Nat) × List Str),
      (∀ k v, (k, v) ∈ acc.1 → strStartsWith k urlPrefix = true) →
      ∀ k v, (k, v) ∈ (List.foldl (urlRowStep urlPrefix) acc rows).1 →
        strStartsWith k urlPrefix = true := by
  intro rows
  induction rows with
  | nil => intro acc h; exact h
  | cons row rows ih =>
    intro acc h
    refine ih _ ?_
    intro k v hkv
    rcases urlRowStep_shape urlPrefix acc row with hs | ⟨k2, v2, hk2, hs⟩
    · exact h k v (hs ▸ hkv)
    · rcases mem_pyInsert (hs ▸ hkv) with hkv | hkv
      · exact h k v hkv
      · have hk : k = k2 := congrArg Prod.fst hkv
        exact hk ▸ hk2

/-- Claim C1: `resolve_path` follows the five-step order on every request
path: it first joins `url_prefix` with the path stripped of leading
slashes; a redirect-map hit on the normalized path raises
`RedirectFoundError` with that entry's location (with priority over any
URL-map entry: the first conjunct assumes nothing about the URL map);
otherwise a string-key hit in the URL map returns the mapped topic id;
only otherwise is the raw, unnormalized path parsed as a bare topic URL,
raising `PathNotFoundError` when the pattern fails or yields no topic id,
raising `RedirectFoundError` with target `url_map[topic_id]` when the
parsed id is an integer key of the URL map, and returning the parsed id
otherwise. -/
theorem resolvePath_five_step_order (st : ParserState) (p : Str) :
    (∀ loc, alGet st.redirectMap (osJoin st.urlPrefix (lstripSlash p)) = some loc →
      resolvePath st p = .redirectFound (osJoin st.urlPrefix (lstripSlash p)) loc) ∧
    (alGet st.redirectMap (osJoin st.urlPrefix (lstripSlash p)) = none →
      ∀ topicId, alGet st.urlMap.strs (osJoin st.urlPrefix (lstripSlash p)) = some topicId →
        resolvePath st p = .found topicId) ∧
    (alGet st.redirectMap (osJoin st.urlPrefix (lstripSlash p)) = none →
      alGet st.urlMap.strs (osJoin st.urlPrefix (lstripSlash p)) = none →
      (getUrlTopicId st.baseUrl p = none → resolvePath st p = .pathNotFound p) ∧
      (∀ topicId, getUrlTopicId st.baseUrl p = some topicId →
        (∀ target, alGet st.urlMap.ints topicId = some target →
          resolvePath st p = .redirectFound (osJoin st.urlPrefix (lstripSlash p)) target) ∧
        (alGet st.urlMap.ints topicId = none → resolvePath st p = .found topicId))) := by
  refine ⟨?_, ?_, ?_⟩
  · intro loc h1
    simp [resolvePath, resolvePathSt, h1]
  · intro h1 topicId h2
    simp [resolvePath, resolvePathSt, h1, h2]
  · intro h1 h2
    refine ⟨?_, ?_⟩
    · intro h3
      simp [resolvePath, resolvePathSt, h1, h2, h3]
    · intro topicId h3
      refine ⟨?_, ?_⟩
      · intro target h4
        simp [resolvePath, resolvePathSt, h1, h2, h3, h4]
      · intro h4
        simp [resolvePath, resolvePathSt, h1, h2, h3, h4]

/-- Witness for claim C1 at concrete inputs: a redirect-map hit beats a
clashing URL-map entry for the same path, and an unparseable path is
reported not found. -/
theorem resolvePath_five_step_order_witness :
    resolvePath ⟨lit "https://forum.example.com", lit "/",
        ⟨[(lit "/r", 7)], [(7, lit "/r")]⟩, [(lit "/r", lit "/x")], []⟩ (lit "/r") =
      .redirectFound (lit "/r") (lit "/x") ∧
    resolvePath ⟨lit "https://forum.example.com", lit "/",
        ⟨[(lit "/r", 7)], [(7, lit "/r")]⟩, [(lit "/r", lit "/x")], []⟩ (lit "/nope") =
      .pathNotFound (lit "/nope") := by
  constructor
  · exact (resolvePath_five_step_order _ _).1 (lit "/x") (by decide)
  · exact ((resolvePath_five_step_order _ _).2.2 (by decide) (by decide)).1 (by decide)

/-- Claim C8: `resolve_path` is read-only on the parser state: whatever
the outcome (topic id, redirect, or not-found), the state after the call
has the same `url_map`, `redirect_map`, and `warnings` as before. -/
theorem resolvePathSt_state_frame (st : ParserState) (p : Str) :
    (resolvePathSt st p).2.urlMap = st.urlMap ∧
    (resolvePathSt st p).2.redirectMap = st.redirectMap ∧
    (resolvePathSt st p).2.warnings = st.warnings := by
  have h : (resolvePathSt st p).2 = st := by
    simp only [resolvePathSt]
    repeat' split
    all_goals rfl
  rw [h]
  exact ⟨rfl, rfl, rfl⟩

/-- Claim C2: the end-to-end example: index topic id 34, url_prefix `/`,
a Navigation table with the single row `(0, /a, <a href="/t/page-a/10">Page A</a>)`
and a Redirects table with the single row `(/redir-a, /a)`.  The parse
produces `url_map == {"/a": 10, "/": 34, 10: "/a", 34: "/"}` (shown as
its two key-type fibers) and `redirect_map == {"/redir-a": "/a"}`;
`resolve_path("/redir-a")` raises `RedirectFoundError` with target `/a`,
`resolve_path("/a")` returns topic id 10, and
`resolve_path("/t/some-other-slug/10")` raises `RedirectFoundError` with
target `/a`. -/
theorem docParse_end_to_end_example :
    docParse ⟨lit "https://forum.example.com", lit "/", 34⟩
      ⟨[⟨lit "0", lit "/a", some (lit "/t/page-a/10"), lit "Page A"⟩],
       [⟨some (lit "/redir-a"), some (lit "/a")⟩]⟩
      ⟨⟨[], []⟩, [], [], []⟩ =
      some ⟨⟨[(lit "/a", 10), (lit "/", 34)], [(10, lit "/a"), (34, lit "/")]⟩,
            [(lit "/redir-a", lit "/a")],
            [⟨0, lit "/a", some (lit "/t/page-a/10"), lit "Page A"⟩], []⟩ ∧
    resolvePath ⟨lit "https://forum.example.com", lit "/",
        ⟨[(lit "/a", 10), (lit "/", 34)], [(10, lit "/a"), (34, lit "/")]⟩,
        [(lit "/redir-a", lit "/a")], []⟩ (lit "/redir-a") =
      .redirectFound (lit "/redir-a") (lit "/a") ∧
    resolvePath ⟨lit "https://forum.example.com", lit "/",
        ⟨[(lit "/a", 10), (lit "/", 34)], [(10, lit "/a"), (34, lit "/")]⟩,
        [(lit "/redir-a", lit "/a")], []⟩ (lit "/a") = .found 10 ∧
    resolvePath ⟨lit "https://forum.example.com", lit "/",
        ⟨[(lit "/a", 10), (lit "/", 34)], [(10, lit "/a"), (34, lit "/")]⟩,
        [(lit "/redir-a", lit "/a")], []⟩ (lit "/t/some-other-slug/10") =
      .redirectFound (lit "/t/some-other-slug/10") (lit "/a") := by
  refine ⟨by decide, by decide, by decide, by decide⟩

/-- Counterexample to claim C3 as stated: with two valid URLs-table rows
mapping distinct paths `/a` and `/b` to the same topic id 10 (index
topic 34, prefix `/`), the builder records `/a -> 10`, yet the reverse
entry keeps only the last path: `map[10] == "/b"`, so
`map[map["/a"]] != "/a"` and the two directions do not hold
simultaneously for the recorded row `("/a", 10)`. -/
theorem urlMap_bidirectional_counterexample :
    alGet (parseUrlMap [⟨some (lit "/t/a/10"), some (lit "/a")⟩,
        ⟨some (lit "/t/b/10"), some (lit "/b")⟩] (lit "/") 34).1.strs (lit "/a") = some 10 ∧
    alGet (parseUrlMap [⟨some (lit "/t/a/10"), some (lit "/a")⟩,
        ⟨some (lit "/t/b/10"), some (lit "/b")⟩] (lit "/") 34).1.ints 10 = some (lit "/b") ∧
    lit "/b" ≠ lit "/a" := by
  refine ⟨by decide, by decide, by decide⟩

/-- Claim C3 (amended): the map returned by the URL-map builder is
saturated in both directions for every input table: every string key
maps to a topic id that is itself an integer key, and every integer key
maps to a path that is itself a string key.  The stronger row-wise
property `map[p] == t ∧ map[t] == p` for every recorded row fails when
several paths name the same topic id or a row collides with the
unconditionally inserted homepage pair. -/
theorem urlMap_saturated (rows : List UrlRow) (urlPrefix : Str) (indexTopicId : Nat) :
    (∀ p t, alGet (parseUrlMap rows urlPrefix indexTopicId).1.strs p = some t →
      (alGet (parseUrlMap rows urlPrefix indexTopicId).1.ints t).isSome = true) ∧
    (∀ t p, alGet (parseUrlMap rows urlPrefix indexTopicId).1.ints t = some p →
      (alGet (parseUrlMap rows urlPrefix indexTopicId).1.strs p).isSome = true) := by
  constructor
  · intro p t hpt
    simp only [parseUrlMap, saturateUrlMap] at hpt ⊢
    by_cases hp : p = homePath urlPrefix
    · subst hp
      rw [alGet_pyInsert_self] at hpt
      have ht : t = indexTopicId := by simpa using hpt.symm
      subst ht
      simp [alGet_pyInsert_self]
    · rw [alGet_pyInsert_ne _ _ _ _ hp] at hpt
      have hmem := alGet_mem hpt
      exact isSome_alGet_pyInsert _ _ _ _ (isSome_alGet_invert_of_mem hmem)
  · intro t p hpt
    simp only [parseUrlMap, saturateUrlMap] at hpt ⊢
    by_cases ht : t = indexTopicId
    · subst ht
      rw [alGet_pyInsert_self] at hpt
      have hp : p = homePath urlPrefix := by simpa using hpt.symm
      subst hp
      simp [alGet_pyInsert_self]
    · rw [alGet_pyInsert_ne _ _ _ _ ht] at hpt
      have hmem := mem_invertPairs (alGet_mem hpt)
      exact isSome_alGet_pyInsert _ _ _ _ (isSome_alGet_of_mem hmem)

/-- Witness for the amended claim C3 at a concrete input: in the map of
the counterexample table, the string key `/a` maps to an id that is an
integer key, and the integer key 10 maps to a path that is a string
key. -/
theorem urlMap_saturated_witness :
    (alGet (parseUrlMap [⟨some (lit "/t/a/10"), some (lit "/a")⟩,
        ⟨some (lit "/t/b/10"), some (lit "/b")⟩] (lit "/") 34).1.ints 10).isSome = true ∧
    (alGet (parseUrlMap [⟨some (lit "/t/a/10"), some (lit "/a")⟩,
        ⟨some (lit "/t/b/10"), some (lit "/b")⟩] (lit "/") 34).1.strs (lit "/b")).isSome = true := by
  constructor
  · exact (urlMap_saturated [⟨some (lit "/t/a/10"), some (lit "/a")⟩,
      ⟨some (lit "/t/b/10"), some (lit "/b")⟩] (lit "/") 34).1 (lit "/a") 10 (by decide)
  · exact (urlMap_saturated [⟨some (lit "/t/a/10"), some (lit "/a")⟩,
      ⟨some (lit "/t/b/10"), some (lit "/b")⟩] (lit "/") 34).2 10 (lit "/b") (by decide)

/-- Counterexample to claim C9 as stated: with url_prefix `/`, index
topic 34 and the single valid row mapping path `/` to topic 10, the
homepage-pair insertion overwrites `map["/"]` with 34, so for the
integer key 10 the round trip fails: `map[10] == "/"` but
`map[map[10]] == 34 != 10`. -/
theorem urlMap_roundtrip_counterexample :
    alGet (parseUrlMap [⟨some (lit "/t/a/10"), some (lit "/")⟩]
      (lit "/") 34).1.ints 10 = some (lit "/") ∧
    alGet (parseUrlMap [⟨some (lit "/t/a/10"), some (lit "/")⟩]
      (lit "/") 34).1.strs (lit "/") = some 34 ∧
    (34 : Nat) ≠ 10 := by
  refine ⟨by decide, by decide, by decide⟩

/-- Claim C9 (amended): for every integer key `t` of the returned map,
`map[map[t]] == t` holds provided the path `map[t]` is not the homepage
path, or `t` is the index topic id; the single failing case is an
integer key `t` distinct from the index topic id whose recorded path
collides with the homepage path, which the homepage pair overwrites. -/
theorem urlMap_roundtrip_amended (rows : List UrlRow) (urlPrefix : Str) (indexTopicId : Nat)
    (t : Nat) (p : Str)
    (hget : alGet (parseUrlMap rows urlPrefix indexTopicId).1.ints t = some p)
    (hside : p ≠ homePath urlPrefix ∨ t = indexTopicId) :
    alGet (parseUrlMap rows urlPrefix indexTopicId).1.strs p = some t := by
  simp only [parseUrlMap, saturateUrlMap] at hget ⊢
  by_cases ht : t = indexTopicId
  · subst ht
    rw [alGet_pyInsert_self] at hget
    have hp : p = homePath urlPrefix := by simpa using hget.symm
    subst hp
    rw [alGet_pyInsert_self]
  · rw [alGet_pyInsert_ne _ _ _ _ ht] at hget
    have hp : p ≠ homePath urlPrefix := by
      rcases hside with h | h
      · exact h
      · exact absurd h ht
    have hmem := mem_invertPairs (alGet_mem hget)
    have hnodup : keysNodup (List.foldl (urlRowStep urlPrefix) ([], []) rows).1 :=
      keysNodup_foldl_urlRowStep urlPrefix rows ([], []) (by simp [keysNodup])
    rw [alGet_pyInsert_ne _ _ _ _ hp]
    exact alGet_of_mem_nodup hmem hnodup

/-- Witness for the amended claim C9 at a concrete input: in the map of
the counterexample above, the integer key 34 (the index topic) does
round-trip. -/
theorem urlMap_roundtrip_amended_witness :
    alGet (parseUrlMap [⟨some (lit "/t/a/10"), some (lit "/")⟩]
      (lit "/") 34).1.strs (lit "/") = some 34 := by
  exact urlMap_roundtrip_amended [⟨some (lit "/t/a/10"), some (lit "/")⟩] (lit "/") 34 34
    (lit "/") (by decide) (Or.inr rfl)

theorem homePath_eq_self {urlPrefix : Str}
    (h : urlPrefix = lit "/" ∨ endsWithSlash urlPrefix = false) :
    homePath urlPrefix = urlPrefix := by
  rcases h with h | h
  · subst h; simp [homePath]
  · simp [homePath, h]

/-- Counterexample to claim C10 as stated: with url_prefix `/docs/`
(trailing slash) and an empty URLs table, the homepage pair inserts the
string key `/docs` (the prefix with its trailing slash stripped), which
does not start with `/docs/` — so not every string key of the returned
map starts with url_prefix. -/
theorem urlMap_keys_prefix_counterexample :
    (alGet (parseUrlMap [] (lit "/docs/") 34).1.strs (lit "/docs")).isSome = true ∧
    strStartsWith (lit "/docs") (lit "/docs/") = false := by
  refine ⟨by decide, by decide⟩

/-- Claim C10 (amended): after normalization every candidate pretty path
starts with url_prefix, so the prefix-mismatch half of the row-rejection
test is unreachable: a row with both cells present is recorded exactly
when its anchor parses as a topic URL, and warns only otherwise.
Consequently every string key of the returned map starts with url_prefix
or is the homepage key (url_prefix with trailing slashes stripped); when
url_prefix is `/` or has no trailing slash, every string key starts with
url_prefix. -/
theorem urlMap_prefix_check_unreachable (urlPrefix : Str) :
    (∀ pathCell, strStartsWith (normalizePretty urlPrefix pathCell) urlPrefix = true) ∧
    (∀ acc href pathCell topicId, matchTopicUrl (urlparsePath href) = some topicId →
      urlRowStep urlPrefix acc ⟨some href, some pathCell⟩ =
        (pyInsert acc.1 (normalizePretty urlPrefix pathCell) topicId, acc.2)) ∧
    (∀ acc href pathCell, matchTopicUrl (urlparsePath href) = none →
      urlRowStep urlPrefix acc ⟨some href, some pathCell⟩ =
        (acc.1, acc.2 ++ [lit "Could not parse URL map item \x7bitem\x7d"])) ∧
    (∀ rows indexTopicId k,
      (alGet (parseUrlMap rows urlPrefix indexTopicId).1.strs k).isSome = true →
      strStartsWith k urlPrefix = true ∨ k = homePath urlPrefix) ∧
    ((urlPrefix = lit "/" ∨ endsWithSlash urlPrefix = false) →
      ∀ rows indexTopicId k,
        (alGet (parseUrlMap rows urlPrefix indexTopicId).1.strs k).isSome = true →
        strStartsWith k urlPrefix = true) := by
  have hkeys : ∀ rows indexTopicId k,
      (alGet (parseUrlMap rows urlPrefix indexTopicId).1.strs k).isSome = true →
      strStartsWith k urlPrefix = true ∨ k = homePath urlPrefix := by
    intro rows indexTopicId k h
    simp only [parseUrlMap, saturateUrlMap] at h
    by_cases hk : k = homePath urlPrefix
    · exact Or.inr hk
    · rw [alGet_pyInsert_ne _ _ _ _ hk] at h
      obtain ⟨v, hv⟩ := Option.isSome_iff_exists.mp h
      exact Or.inl (keys_prefix_foldl_urlRowStep urlPrefix rows ([], [])
        (by intro a b hab; simp at hab) k v (alGet_mem hv))
  refine ⟨strStartsWith_normalizePretty urlPrefix, ?_, ?_, hkeys, ?_⟩
  · intro acc href pathCell topicId h
    simp [urlRowStep, h, strStartsWith_normalizePretty]
  · intro acc href pathCell h
    simp [urlRowStep, h]
  · intro hcond rows indexTopicId k h
    rcases hkeys rows indexTopicId k h with h2 | h2
    · exact h2
    · rw [h2, homePath_eq_self hcond]
      exact strStartsWith_refl urlPrefix

/-- Witness for the amended claim C10 at concrete inputs: a row with a
valid topic anchor and the path cell `a` (no leading slash) is recorded
under `/a` with no warning, and with prefix `/` every string key of the
empty-table map starts with `/`. -/
theorem urlMap_prefix_check_unreachable_witness :
    urlRowStep (lit "/") ((([], []) : List (Str × Nat) × List Str))
      ⟨some (lit "/t/a/10"), some (lit "a")⟩ = ([(lit "/a", 10)], []) ∧
    strStartsWith (lit "/") (lit "/") = true := by
  constructor
  · exact ((urlMap_prefix_check_unreachable (lit "/")).2.1 ([], []) (lit "/t/a/10")
      (lit "a") 10 (by decide)).trans (by decide)
  · exact (urlMap_prefix_check_unreachable (lit "/")).2.2.2.2 (Or.inl rfl) [] 34
      (lit "/") (by decide)

theorem redRowStep_fst_valid (urlPrefix : Str) (urlMapStrs : List (Str × Nat))
    (acc : List (Str × Str) × List Str) {row : RedRow} {path loc : Str}
    (hp : row.pathCell = some path) (hl : row.locationCell = some loc)
    (hv : validRedRow urlPrefix urlMapStrs row = true) :
    redRowStep urlPrefix urlMapStrs acc row = (pyInsert acc.1 path loc, acc.2) := by
  rcases row with ⟨pc, lc⟩
  simp only at hp hl
  subst hp; subst hl
  simp only [validRedRow, Bool.and_eq_true, Bool.not_eq_true'] at hv
  simp [redRowStep, hv.1.1, hv.1.2, hv.2]

theorem redRowStep_fst_invalid (urlPrefix : Str) (urlMapStrs : List (Str × Nat))
    (acc : List (Str × Str) × List Str) {row : RedRow}
    (hv : validRedRow urlPrefix urlMapStrs row = false) :
    (redRowStep urlPrefix urlMapStrs acc row).1 = acc.1 := by
  rcases row with ⟨pc, lc⟩
  rcases pc with _ | path
  · simp [redRowStep]
  rcases lc with _ | loc
  · simp [redRowStep]
  simp only [validRedRow, Bool.and_eq_false_iff, Bool.not_eq_false'] at hv
  by_cases h1 : strStartsWith path urlPrefix = true
  · by_cases h2 : (strStartsWith loc urlPrefix || validatorsUrl loc) = true
    · have h3 : (alGet urlMapStrs path).isSome = true := by
        rcases hv with (hv | hv) | hv
        · exact absurd h1 (by simp [hv])
        · exact absurd h2 (by simp [hv])
        · exact hv
      simp [redRowStep, h1, h2, h3]
    · simp [redRowStep, h1, h2]
  · simp [redRowStep, h1]

theorem alGet_foldl_redRowStep (urlPrefix : Str) (urlMapStrs : List (Str × Nat)) (p : Str) :
    ∀ (rows : List RedRow) (acc : List (Str × Str) × List Str),
      alGet (List.foldl (redRowStep urlPrefix urlMapStrs) acc rows).1 p =
        match lastValidLoc urlPrefix urlMapStrs p rows with
        | some l => some l
        | none => alGet acc.1 p := by
  intro rows
  induction rows with
  | nil => intro acc; rfl
  | cons row rest ih =>
    intro acc
    rw [List.foldl_cons, ih]
    rcases hrest : lastValidLoc urlPrefix urlMapStrs p rest with _ | l
    · simp only [lastValidLoc, hrest]
      by_cases hv : validRedRow urlPrefix urlMapStrs row = true
      · by_cases hp : row.pathCell = some p
        · obtain ⟨loc, hl⟩ : ∃ loc, row.locationCell = some loc := by
            rcases row with ⟨pc, lc⟩
            rcases lc with _ | loc
            · rcases pc with _ | path <;> simp [validRedRow] at hv
            · exact ⟨loc, rfl⟩
          rw [redRowStep_fst_valid urlPrefix urlMapStrs acc hp hl hv]
          simp [alGet_pyInsert_self, hv, hp, hl]
        · rw [if_neg (fun hc => hp hc.2)]
          have hstep : (redRowStep urlPrefix urlMapStrs acc row).1 = acc.1 ∨
              ∃ path loc, path ≠ p ∧
                redRowStep urlPrefix urlMapStrs acc row = (pyInsert acc.1 path loc, acc.2) := by
            rcases hpc : row.pathCell with _ | path
            · left
              rcases row with ⟨pc, lc⟩
              simp only at hpc
              subst hpc
              simp [redRowStep]
            · rcases hlc : row.locationCell with _ | loc
              · left
                rcases row with ⟨pc, lc⟩
                simp only at hpc hlc
                subst hpc; subst hlc
                simp [redRowStep]
              · right
                refine ⟨path, loc, fun he => hp (he ▸ hpc), ?_⟩
                exact redRowStep_fst_valid urlPrefix urlMapStrs acc hpc hlc hv
          rcases hstep with hstep | ⟨path, loc, hne, hstep⟩
          · rw [hstep]
          · rw [hstep]
            exact alGet_pyInsert_ne _ _ _ _ (fun he => hne he.symm)
      · rw [redRowStep_fst_invalid urlPrefix urlMapStrs acc (by simpa using hv)]
        rw [if_neg (fun hc => hv hc.1)]
    · simp [lastValidLoc, hrest]

/-- Counterexample to claim C5 as stated: two Redirects rows with the
same source path `/r` (prefix `/`, empty URL map) both pass validation,
yet the returned map keeps the SECOND row's location `/y`, not the
first's `/x`: rows are a plain key overwrite, so the last occurrence
wins. -/
theorem redirectMap_first_wins_counterexample :
    validRedRow (lit "/") [] ⟨some (lit "/r"), some (lit "/x")⟩ = true ∧
    validRedRow (lit "/") [] ⟨some (lit "/r"), some (lit "/y")⟩ = true ∧
    alGet (parseRedirectMap [⟨some (lit "/r"), some (lit "/x")⟩,
      ⟨some (lit "/r"), some (lit "/y")⟩] (lit "/") []).1 (lit "/r") = some (lit "/y") ∧
    lit "/y" ≠ lit "/x" := by
  refine ⟨by decide, by decide, by decide, by decide⟩

/-- Claim C5 (amended): rows of the Redirects table are processed in
document order into a plain key-overwrite dict, so for every path the
returned redirect map holds the location of the LAST valid row with
that source path (later duplicates overwrite earlier ones); the earlier
duplicate is the one effectively ignored. -/
theorem redirectMap_last_valid_wins (rows : List RedRow) (urlPrefix : Str)
    (urlMapStrs : List (Str × Nat)) (p : Str) :
    alGet (parseRedirectMap rows urlPrefix urlMapStrs).1 p =
      lastValidLoc urlPrefix urlMapStrs p rows := by
  have h := alGet_foldl_redRowStep urlPrefix urlMapStrs p rows ([], [])
  simp only [parseRedirectMap]
  rw [h]
  rcases hl : lastValidLoc urlPrefix urlMapStrs p rows with _ | l
  · rfl
  · rfl

theorem sliceBeforeNextHeading_eq_takeWhile (rest : List HtmlNode) (level : Nat) :
    sliceBeforeNextHeading rest level =
      rest.takeWhile (fun n => !(isHeadingOfLevel level n)) := by
  induction rest with
  | nil => rfl
  | cons n rest ih =>
    by_cases hn : isHeadingOfLevel level n = true
    · simp [sliceBeforeNextHeading, List.findIdx?_cons, hn, List.takeWhile_cons]
    · simp only [Bool.not_eq_true] at hn
      simp only [sliceBeforeNextHeading, List.findIdx?_cons, hn, Bool.false_eq_true, if_false,
        List.findIdx?_succ, List.takeWhile_cons, Bool.not_false]
      rcases h : rest.findIdx? (isHeadingOfLevel level) with _ | j <;>
        simp only [sliceBeforeNextHeading, h] at ih <;>
        exact congrArg (List.cons n) ih

theorem getSection_eq_none_iff (doc : List HtmlNode) (title : Str) :
    getSection doc title = none ↔ ∀ n ∈ doc, isHeadingWithText title n = false := by
  induction doc with
  | nil => simp [getSection]
  | cons n rest ih =>
    rcases n with ⟨l, t⟩ | h
    · by_cases ht : t = title
      · subst ht
        simp [getSection, isHeadingWithText]
      · simp [getSection, ht, ih, isHeadingWithText]
    · simp [getSection, ih, isHeadingWithText]

theorem getSection_of_split (title : Str) :
    ∀ (pre : List HtmlNode) (level : Nat) (post : List HtmlNode),
      (∀ n ∈ pre, isHeadingWithText title n = false) →
      getSection (pre ++ HtmlNode.heading level title :: post) title =
        some (post.takeWhile (fun n => !(isHeadingOfLevel level n))) := by
  intro pre
  induction pre with
  | nil =>
    intro level post _
    simp [getSection, sliceBeforeNextHeading_eq_takeWhile]
  | cons n pre ih =>
    intro level post hpre
    have hn := hpre n (List.mem_cons_self n pre)
    rcases n with ⟨l, t⟩ | h
    · have ht : ¬ t = title := by simpa [isHeadingWithText] using hn
      simp only [List.cons_append, getSection, if_neg ht]
      exact ih level post (fun m hm => hpre m (List.mem_cons_of_mem _ hm))
    · simp only [List.cons_append, getSection]
      exact ih level post (fun m hm => hpre m (List.mem_cons_of_mem _ hm))

/-- Claim C6: the section extractor returns null exactly when no heading
of the document has the given text (exact, case-sensitive match), and
when the first matching heading has level `l`, it returns exactly the
sibling content strictly between that heading and the next heading of
the same level (to the end of the document when none follows). -/
theorem getSection_boundary (doc : List HtmlNode) (title : Str) :
    (getSection doc title = none ↔ ∀ n ∈ doc, isHeadingWithText title n = false) ∧
    (∀ pre level post, doc = pre ++ HtmlNode.heading level title :: post →
      (∀ n ∈ pre, isHeadingWithText title n = false) →
      getSection doc title = some (post.takeWhile (fun n => !(isHeadingOfLevel level n)))) := by
  refine ⟨getSection_eq_none_iff doc title, ?_⟩
  intro pre level post hdoc hpre
  rw [hdoc]
  exact getSection_of_split title pre level post hpre

/-- Witness for claim C6 at the concrete document of the spec:
extracting section `A` from `<h2>A</h2><p>x</p><h2>B</h2><p>y</p>`
yields exactly `<p>x</p>` and not `<p>y</p>`. -/
theorem getSection_boundary_witness :
    getSection [HtmlNode.heading 2 (lit "A"), HtmlNode.content (lit "<p>x</p>"),
      HtmlNode.heading 2 (lit "B"), HtmlNode.content (lit "<p>y</p>")] (lit "A") =
      some [HtmlNode.content (lit "<p>x</p>")] := by
  have h := (getSection_boundary [HtmlNode.heading 2 (lit "A"),
    HtmlNode.content (lit "<p>x</p>"), HtmlNode.heading 2 (lit "B"),
    HtmlNode.content (lit "<p>y</p>")] (lit "A")).2 [] 2
    [HtmlNode.content (lit "<p>x</p>"), HtmlNode.heading 2 (lit "B"),
     HtmlNode.content (lit "<p>y</p>")] rfl (by intro n hn; simp at hn)
  exact h.trans (by decide)

/-- Claim C7 (code bug), evaluated at the failing input: for a level
cell that fails `isnumeric()` (`-1`, `abc`) the row alone is excluded
with exactly one warning and the sibling valid row still parses, and a
decimal-digit cell in another script (`\u0663`, Arabic-Indic three) is
accepted as level 3 — but for the level cell `\u00bc` (VULGAR FRACTION
ONE QUARTER) `isnumeric()` is true, validation passes, and `int("\u00bc")`
raises `ValueError`, aborting the whole parse with no warning and
discarding the valid sibling row, contradicting the claim's
warn-skip-never-raise behavior. -/
theorem navigation_bad_level_row :
    parseNavigationTable [⟨lit "¼", lit "/x", none, lit "X"⟩,
        ⟨lit "1", lit "/y", none, lit "Y"⟩] = none ∧
    parseNavigationTable [⟨lit "-1", lit "/x", none, lit "X"⟩,
        ⟨lit "1", lit "/y", none, lit "Y"⟩] =
      some ([⟨1, lit "/y", none, lit "Y"⟩], [lit "Invalid level used: -1"]) ∧
    parseNavigationTable [⟨lit "abc", lit "/z", none, lit "Z"⟩] =
      some ([], [lit "Invalid level used: abc"]) ∧
    parseNavigationTable [⟨lit "٣", lit "/w", none, lit "W"⟩] =
      some ([⟨3, lit "/w", none, lit "W"⟩], []) := by
  refine ⟨by decide, by decide, by decide, by decide⟩

/-- Counterexample to claim C4 as stated: a `DocParser` index whose
Redirects table has one invalid row (source `/r` outside prefix
`/docs`) parses to the same maps both times, but `parse` appends this
pass's warnings to `self.warnings` instead of replacing them, so after
the second parse the warning list is doubled and differs from the list
after the first parse. -/
theorem docParse_warnings_accumulate_counterexample :
    docParse ⟨lit "https://forum.example.com", lit "/docs", 34⟩
        ⟨[], [⟨some (lit "/r"), some (lit "/x")⟩]⟩ ⟨⟨[], []⟩, [], [], []⟩ =
      some ⟨⟨[(lit "/docs", 34)], [(34, lit "/docs")]⟩, [], [],
            [lit "Could not parse redirect map for /r"]⟩ ∧
    docParse ⟨lit "https://forum.example.com", lit "/docs", 34⟩
        ⟨[], [⟨some (lit "/r"), some (lit "/x")⟩]⟩
        ⟨⟨[(lit "/docs", 34)], [(34, lit "/docs")]⟩, [], [],
         [lit "Could not parse redirect map for /r"]⟩ =
      some ⟨⟨[(lit "/docs", 34)], [(34, lit "/docs")]⟩, [], [],
            [lit "Could not parse redirect map for /r",
             lit "Could not parse redirect map for /r"]⟩ ∧
    [lit "Could not parse redirect map for /r",
     lit "Could not parse redirect map for /r"] ≠
      [lit "Could not parse redirect map for /r"] := by
  refine ⟨by decide, by decide, by decide⟩

/-- Claim C4 (amended): parsing the same unchanged index twice yields
identical URL map, redirect map, and navigation items; but while
`TutorialParser.parse` also replaces the warning list (fully
idempotent), `DocParser.parse` appends the per-parse warnings to the
accumulated list, so after the second parse the warning list is the
first list followed by the same per-parse warnings again. -/
theorem parse_idempotent_maps (cfg : DocConfig) (content : IndexContent) (st : DocState)
    (out : DocState) (h : docParseOutputs cfg content = some out) :
    docParse cfg content st =
      some ⟨out.urlMap, out.redirectMap, out.navItems, st.warnings ++ out.warnings⟩ ∧
    docParse cfg content ⟨out.urlMap, out.redirectMap, out.navItems,
        st.warnings ++ out.warnings⟩ =
      some ⟨out.urlMap, out.redirectMap, out.navItems,
        (st.warnings ++ out.warnings) ++ out.warnings⟩ ∧
    (∀ (tc : TutContent) (ts : TutState),
      tutorialParse cfg tc (tutorialParse cfg tc ts) = tutorialParse cfg tc ts) := by
  refine ⟨?_, ?_, ?_⟩
  · simp [docParse, h]
  · simp [docParse, h]
  · intro tc ts
    rfl

/-- Witness for the amended claim C4 at a concrete input: an index with
one good navigation row parses twice to the same maps, accumulating its
(empty) warning list. -/
theorem parse_idempotent_maps_witness :
    docParse ⟨lit "https://forum.example.com", lit "/", 34⟩
        ⟨[⟨lit "0", lit "/a", some (lit "/t/page-a/10"), lit "Page A"⟩], []⟩
        ⟨⟨[], []⟩, [], [], []⟩ =
      some ⟨⟨[(lit "/a", 10), (lit "/", 34)], [(10, lit "/a"), (34, lit "/")]⟩, [],
            [⟨0, lit "/a", some (lit "/t/page-a/10"), lit "Page A"⟩], [] ++ []⟩ := by
  have h := parse_idempotent_maps ⟨lit "https://forum.example.com", lit "/", 34⟩
    ⟨[⟨lit "0", lit "/a", some (lit "/t/page-a/10"), lit "Page A"⟩], []⟩
    ⟨⟨[], []⟩, [], [], []⟩
    ⟨⟨[(lit "/a", 10), (lit "/", 34)], [(10, lit "/a"), (34, lit "/")]⟩, [],
     [⟨0, lit "/a", some (lit "/t/page-a/10"), lit "Page A"⟩], []⟩ (by decide)
  exact h.1
